import Mathlib

/-!
# ReverseInPlace (go_cheatsheet/array/reverse_inplace.go)

A shallow embedding of the Go function

```go
func ReverseInPlace(list []int, start, end int) {
	for i := start; i < start+end-i; i++ {
		j := start + end - i
		list[i], list[j] = list[j], list[i]
	}
	for i, j := start, end; i < j; i, j = i+1, j-1 {
		list[i], list[j] = list[j], list[i]
	}
}
```

The slice is a `List Int`, indices are mathematical integers, and a Go
run-time panic (index out of range) is an explicit outcome that still carries
the contents of the slice at the moment of the panic.  Two ghost fields record
what the run did: the number of completed swaps and the indices that appeared
in executed index expressions.
-/

namespace GoCheatsheet

/-- The slice together with the ghost record of the run. -/
structure State where
  /-- Contents of the slice. -/
  list : List Int
  /-- Ghost: number of swap statements that ran to completion. -/
  swaps : Nat
  /-- Ghost: every index used by an executed swap statement, in order. -/
  accessed : List Int
deriving DecidableEq, Repr

/-- How a run ends: a normal return, or a run-time panic. -/
inductive Outcome where
  /-- Normal return, with the final state. -/
  | returned (s : State)
  /-- Index-out-of-range panic, with the state at the moment of the panic. -/
  | panicked (s : State)
deriving DecidableEq, Repr

/-- State at the start of a call: no swap done, no index used. -/
def initial (list : List Int) : State :=
  { list := list, swaps := 0, accessed := [] }

/-- Go's `list[i]` as a read: defined exactly when `0 <= i < len(list)`. -/
def index (list : List Int) (i : Int) : Option Int :=
  if 0 ≤ i then list[i.toNat]? else none

/-- Go's `list[i] = v` for an index already known to be in range. -/
def store (list : List Int) (i : Int) (v : Int) : List Int :=
  list.set i.toNat v

/-- The statement `list[i], list[j] = list[j], list[i]`.  Go evaluates both
right-hand operands `list[j]` and `list[i]` before it assigns anything, so an
out-of-range index panics with the slice untouched; otherwise `list[i]` and
then `list[j]` are assigned. -/
def swapAt (s : State) (i j : Int) : Outcome :=
  match index s.list j, index s.list i with
  | some vj, some vi =>
      .returned { list := store (store s.list i vj) j vi,
                  swaps := s.swaps + 1,
                  accessed := s.accessed ++ [i, j] }
  | _, _ => .panicked { s with accessed := s.accessed ++ [i, j] }

/-- The first loop, entered with loop variable `i`:
`for ; i < start+end-i; i++ { j := start + end - i; swap }`. -/
def mirrorLoop (start end_ : Int) (i : Int) (s : State) : Outcome :=
  if i < start + end_ - i then
    match swapAt s i (start + end_ - i) with
    | .returned s' => mirrorLoop start end_ (i + 1) s'
    | .panicked s' => .panicked s'
  else .returned s
termination_by (start + end_ - i - i).toNat
decreasing_by omega

/-- The second loop, entered with loop variables `i`, `j`:
`for ; i < j; i, j = i+1, j-1 { swap }`. -/
def twoPointerLoop (i j : Int) (s : State) : Outcome :=
  if i < j then
    match swapAt s i j with
    | .returned s' => twoPointerLoop (i + 1) (j - 1) s'
    | .panicked s' => .panicked s'
  else .returned s
termination_by (j - i).toNat
decreasing_by omega

/-- The whole function: the mirrored-index loop, then the two-pointer loop on
the slice the first loop left behind. -/
def ReverseInPlace (list : List Int) (start end_ : Int) : Outcome :=
  match mirrorLoop start end_ start (initial list) with
  | .returned s => twoPointerLoop start end_ s
  | .panicked s => .panicked s

/-- Only the mirrored-index loop, as a function of its own. -/
def mirrorOnly (list : List Int) (start end_ : Int) : Outcome :=
  mirrorLoop start end_ start (initial list)

/-- Only the two-pointer loop, as a function of its own. -/
def twoPointerOnly (list : List Int) (start end_ : Int) : Outcome :=
  twoPointerLoop start end_ (initial list)

/-! ### The same code over 64-bit `int`

Go's `int` is a fixed-width two's-complement integer.  The only expression of
the function whose exact value can leave the range of `int` is `start+end-i`
of the first loop; the updates `i+1` and `j-1` run only after `i < j` held.
The definitions below evaluate that expression, and `i++`, with wrap-around;
`mirrorLoop64_eq_mirrorLoop` shows that on `int` arguments nothing changes. -/

/-- Result of a 64-bit two's-complement operation whose exact value is `x`. -/
def wrapInt (x : Int) : Int :=
  (x + 2 ^ 63) % 2 ^ 64 - 2 ^ 63

/-- The values a 64-bit Go `int` can hold. -/
def isGoInt (x : Int) : Prop :=
  -(2 ^ 63) ≤ x ∧ x < 2 ^ 63

instance (x : Int) : Decidable (isGoInt x) := by
  unfold isGoInt; infer_instance

/-- The first loop with `start+end-i` and `i++` computed in 64-bit
arithmetic.  The measure is the gap between `i` and its mirror, which drops by
2 per iteration when `i` is a Go `int`; the added constant covers arguments
below the range of `int`, which the first `i++` wraps into the range. -/
def mirrorLoop64 (start end_ : Int) (i : Int) (s : State) : Outcome :=
  if i < wrapInt (wrapInt (start + end_) - i) then
    match swapAt s i (wrapInt (wrapInt (start + end_) - i)) with
    | .returned s' => mirrorLoop64 start end_ (wrapInt (i + 1)) s'
    | .panicked s' => .panicked s'
  else .returned s
termination_by
  ((if i < -(2 ^ 63) then 2 ^ 64 else 0) +
    (wrapInt (wrapInt (start + end_) - i) - i)).toNat
decreasing_by
  simp only [wrapInt] at *
  omega

/-- The whole function with the first loop in 64-bit arithmetic. -/
def ReverseInPlace64 (list : List Int) (start end_ : Int) : Outcome :=
  match mirrorLoop64 start end_ start (initial list) with
  | .returned s => twoPointerLoop start end_ s
  | .panicked s => .panicked s

/-! ### Runs with a bound on the number of iterations

The loops again, as plain iteration: every evaluation of a loop condition
spends one unit of `fuel`, and a run that spends it all before the loop exits
has no result. -/

/-- The first loop, cut off after `fuel` evaluations of its condition. -/
def mirrorFuel (start end_ : Int) : Nat → Int → State → Option Outcome
  | 0, _, _ => none
  | fuel + 1, i, s =>
    if i < start + end_ - i then
      match swapAt s i (start + end_ - i) with
      | .returned s' => mirrorFuel start end_ fuel (i + 1) s'
      | .panicked s' => some (.panicked s')
    else some (.returned s)

/-- The second loop, cut off after `fuel` evaluations of its condition. -/
def twoPointerFuel : Nat → Int → Int → State → Option Outcome
  | 0, _, _, _ => none
  | fuel + 1, i, j, s =>
    if i < j then
      match swapAt s i j with
      | .returned s' => twoPointerFuel fuel (i + 1) (j - 1) s'
      | .panicked s' => some (.panicked s')
    else some (.returned s)

/-- The whole function with each loop cut off after `fuel` evaluations of its
condition. -/
def ReverseInPlaceFuel (fuel : Nat) (list : List Int) (start end_ : Int) :
    Option Outcome :=
  match mirrorFuel start end_ fuel start (initial list) with
  | some (.returned s) => twoPointerFuel fuel start end_ s
  | some (.panicked s) => some (.panicked s)
  | none => none

/-- Evaluations of the loop condition that a gap of `gap` positions between
the low and the high pointer can take: one per step of 2, and the last one
that exits. -/
def iterationBound (gap : Int) : Nat :=
  (gap.toNat + 1) / 2 + 1

/-! ## Reading and writing by integer index -/

theorem index_eq_none_iff (l : List Int) (i : Int) :
    index l i = none ↔ i < 0 ∨ (l.length : Int) ≤ i := by
  unfold index
  split
  · rw [List.getElem?_eq_none_iff]; omega
  · simp; omega

theorem index_some_of_bounds (l : List Int) (i : Int) (h0 : 0 ≤ i)
    (h1 : i < l.length) : ∃ v, index l i = some v := by
  cases h : index l i with
  | none => rw [index_eq_none_iff] at h; omega
  | some v => exact ⟨v, rfl⟩

theorem length_store (l : List Int) (i v : Int) :
    (store l i v).length = l.length := by
  simp [store]

theorem index_store (l : List Int) (i k v : Int) (h0 : 0 ≤ i) (h1 : i < l.length) :
    index (store l i v) k = if k = i then some v else index l k := by
  unfold index store
  by_cases hk : 0 ≤ k
  · simp only [hk, if_true]
    rw [List.getElem?_set]
    by_cases hki : k = i
    · subst hki
      have : k.toNat < l.length := by omega
      simp [this]
    · have : i.toNat ≠ k.toNat := by omega
      simp [this, hki]
  · have : k ≠ i := by omega
    simp [hk, this]

theorem list_eq_of_index (l l' : List Int)
    (h : ∀ k : Int, index l' k = index l k) : l' = l := by
  apply List.ext_getElem?
  intro n
  have := h (n : Int)
  simpa [index] using this

/-! ## One swap -/

theorem swapAt_of_some (s : State) (i j vi vj : Int)
    (hi : index s.list i = some vi) (hj : index s.list j = some vj) :
    swapAt s i j = .returned { list := store (store s.list i vj) j vi,
                               swaps := s.swaps + 1,
                               accessed := s.accessed ++ [i, j] } := by
  simp [swapAt, hi, hj]

theorem swapAt_of_none (s : State) (i j : Int)
    (h : index s.list i = none ∨ index s.list j = none) :
    swapAt s i j = .panicked { s with accessed := s.accessed ++ [i, j] } := by
  unfold swapAt
  rcases h with h | h
  · rw [h]; cases index s.list j <;> rfl
  · rw [h]

/-! ## The loops -/

theorem twoPointerLoop_exit (i j : Int) (s : State) (h : ¬ i < j) :
    twoPointerLoop i j s = .returned s := by
  rw [twoPointerLoop]; simp [h]

theorem twoPointerLoop_panic (i j : Int) (s : State) (h : i < j)
    (hout : index s.list i = none ∨ index s.list j = none) :
    twoPointerLoop i j s = .panicked { s with accessed := s.accessed ++ [i, j] } := by
  rw [twoPointerLoop]; simp [h, swapAt_of_none s i j hout]

/-- The mirrored-index loop entered at `i` is the two-pointer loop entered at
`i` and `start + end - i`: same swaps, same panics, same ghost record. -/
theorem mirrorLoop_eq_twoPointerLoop (start end_ : Int) :
    ∀ (n : Nat) (i : Int) (s : State), (start + end_ - i - i).toNat ≤ n →
      mirrorLoop start end_ i s = twoPointerLoop i (start + end_ - i) s := by
  intro n
  induction n with
  | zero =>
    intro i s hn
    have h : ¬ i < start + end_ - i := by omega
    rw [mirrorLoop, twoPointerLoop]; simp [h]
  | succ m ih =>
    intro i s hn
    rw [mirrorLoop, twoPointerLoop]
    by_cases h : i < start + end_ - i
    · simp only [h, if_true]
      cases hsw : swapAt s i (start + end_ - i) with
      | panicked s' => rfl
      | returned s' =>
        simp only
        rw [ih (i + 1) s' (by omega)]
        congr 1
        omega
    · simp [h]

/-- After `i < j` on Go `int`s, neither `i+1` nor `j-1` wraps. -/
theorem step_no_wrap (i j : Int) (hi : isGoInt i) (hj : isGoInt j) (h : i < j) :
    wrapInt (i + 1) = i + 1 ∧ wrapInt (j - 1) = j - 1 := by
  simp only [isGoInt, wrapInt] at *
  omega

/-- Whenever the exact value of `start+end-i` is a Go `int`, the wrapped
computation yields it, even if `start+end` itself wrapped. -/
theorem mirror_no_wrap (start end_ i : Int) (h : isGoInt (start + end_ - i)) :
    wrapInt (wrapInt (start + end_) - i) = start + end_ - i := by
  simp only [isGoInt, wrapInt] at *
  omega

/-- On Go `int`s the first loop in 64-bit arithmetic is the first loop in
exact arithmetic. -/
theorem mirrorLoop64_eq_mirrorLoop_at (start end_ : Int) :
    ∀ (n : Nat) (i : Int) (s : State), (start + end_ - i - i).toNat ≤ n →
      isGoInt i → isGoInt (start + end_ - i) →
      mirrorLoop64 start end_ i s = mirrorLoop start end_ i s := by
  intro n
  induction n with
  | zero =>
    intro i s hn _ hj
    have h : ¬ i < start + end_ - i := by omega
    rw [mirrorLoop64, mirrorLoop, mirror_no_wrap start end_ i hj]
    simp [h]
  | succ m ih =>
    intro i s hn hi hj
    rw [mirrorLoop64, mirrorLoop, mirror_no_wrap start end_ i hj]
    by_cases h : i < start + end_ - i
    · simp only [h, if_true]
      cases hsw : swapAt s i (start + end_ - i) with
      | panicked s' => rfl
      | returned s' =>
        simp only
        rw [(step_no_wrap i (start + end_ - i) hi hj h).1]
        apply ih (i + 1) s' (by omega)
        · simp only [isGoInt] at *; omega
        · simp only [isGoInt] at *; omega
    · simp [h]

/-- The first loop as the function enters it, from `i = start`. -/
theorem mirrorLoop64_eq_mirrorLoop (start end_ : Int) (s : State)
    (hs : isGoInt start) (he : isGoInt end_) :
    mirrorLoop64 start end_ start s = mirrorLoop start end_ start s := by
  apply mirrorLoop64_eq_mirrorLoop_at start end_ _ start s (le_refl _) hs
  have : start + end_ - start = end_ := by omega
  rw [this]; exact he

/-- On Go `int` arguments the call in 64-bit arithmetic is the call in exact
arithmetic. -/
theorem ReverseInPlace64_eq_ReverseInPlace (l : List Int) (start end_ : Int)
    (hs : isGoInt start) (he : isGoInt end_) :
    ReverseInPlace64 l start end_ = ReverseInPlace l start end_ := by
  unfold ReverseInPlace64 ReverseInPlace
  rw [mirrorLoop64_eq_mirrorLoop start end_ _ hs he]

/-- The two-pointer loop entered at in-range positions returns normally, and
the slice it leaves is the old one with positions `i..j` mirrored. -/
theorem twoPointerLoop_spec :
    ∀ (n : Nat) (i j : Int) (s : State), (j - i).toNat ≤ n → 0 ≤ i →
      j < s.list.length →
      ∃ s', twoPointerLoop i j s = .returned s' ∧
        s'.list.length = s.list.length ∧
        (∀ k : Int, index s'.list k =
          if i ≤ k ∧ k ≤ j then index s.list (i + j - k) else index s.list k) ∧
        s'.swaps = s.swaps + ((j - i + 1) / 2).toNat ∧
        (∀ a ∈ s'.accessed, a ∈ s.accessed ∨ (i ≤ a ∧ a ≤ j)) := by
  intro n
  induction n with
  | zero =>
    intro i j s hn _ _
    have h : ¬ i < j := by omega
    refine ⟨s, twoPointerLoop_exit i j s h, rfl, ?_, ?_, ?_⟩
    · intro k
      by_cases hk : i ≤ k ∧ k ≤ j
      · have : i + j - k = k := by omega
        simp [hk, this]
      · simp [hk]
    · have : ((j - i + 1) / 2).toNat = 0 := by omega
      omega
    · intro a ha; exact Or.inl ha
  | succ m ih =>
    intro i j s hn h0 hlen
    by_cases h : i < j
    · obtain ⟨vi, hvi⟩ := index_some_of_bounds s.list i h0 (by omega)
      obtain ⟨vj, hvj⟩ := index_some_of_bounds s.list j (by omega) hlen
      have hl1 : (store s.list i vj).length = s.list.length := length_store _ _ _
      have hl2 : (store (store s.list i vj) j vi).length = s.list.length := by
        rw [length_store, hl1]
      obtain ⟨s', hrun, hlen', hidx, hsw, hacc⟩ :=
        ih (i + 1) (j - 1)
          { list := store (store s.list i vj) j vi, swaps := s.swaps + 1,
            accessed := s.accessed ++ [i, j] }
          (by omega) (by omega) (by simp only [hl2]; omega)
      refine ⟨s', ?_, ?_, ?_, ?_, ?_⟩
      · rw [twoPointerLoop]
        simp only [h, if_true, swapAt_of_some s i j vi vj hvi hvj]
        exact hrun
      · rw [hlen', hl2]
      · intro k
        rw [hidx k]
        have rd : ∀ x : Int, index (store (store s.list i vj) j vi) x =
            if x = j then some vi else if x = i then some vj else index s.list x := by
          intro x
          rw [index_store _ j x vi (by omega) (by rw [hl1]; exact hlen),
            index_store _ i x vj h0 (by omega)]
        simp only [rd]
        by_cases hki : k = i
        · subst hki
          have e1 : ¬ (k + 1 ≤ k ∧ k ≤ j - 1) := by omega
          have e2 : k ≠ j := by omega
          have e3 : k ≤ k ∧ k ≤ j := by omega
          have e4 : k + j - k = j := by omega
          simp [e1, e2, e3, e4, hvj]
        · by_cases hkj : k = j
          · subst hkj
            have e1 : ¬ (i + 1 ≤ k ∧ k ≤ k - 1) := by omega
            have e3 : i ≤ k ∧ k ≤ k := by omega
            have e4 : i + k - k = i := by omega
            simp [e1, e3, e4, hvi]
          · by_cases hin : i ≤ k ∧ k ≤ j
            · have e1 : i + 1 ≤ k ∧ k ≤ j - 1 := by omega
              have e2 : i + j - k ≠ j := by omega
              have e3 : i + j - k ≠ i := by omega
              have e4 : i + 1 + (j - 1) - k = i + j - k := by omega
              simp only [e1, hin, and_self, if_true, e4, e2, e3, if_false]
            · have e1 : ¬ (i + 1 ≤ k ∧ k ≤ j - 1) := by omega
              simp only [e1, hin, if_false, hki, hkj]
      · rw [hsw]
        simp only
        have : ((j - 1 - (i + 1) + 1) / 2).toNat + 1 = ((j - i + 1) / 2).toNat := by
          omega
        omega
      · intro a ha
        rcases hacc a ha with hmem | hrange
        · simp only [List.mem_append, List.mem_cons, List.mem_singleton,
            List.not_mem_nil, or_false] at hmem
          rcases hmem with hmem | hmem | hmem
          · exact Or.inl hmem
          · right; omega
          · right; omega
        · right; omega
    · exact ih i j s (by omega) h0 hlen

/-- The two-pointer loop exits within `iterationBound (j - i)` evaluations of
its condition, because each iteration takes 2 off the gap `j - i`. -/
theorem twoPointerFuel_eq :
    ∀ (fuel : Nat) (i j : Int) (s : State), iterationBound (j - i) ≤ fuel →
      twoPointerFuel fuel i j s = some (twoPointerLoop i j s) := by
  intro fuel
  induction fuel with
  | zero =>
    intro i j s h
    simp only [iterationBound] at h
    omega
  | succ m ih =>
    intro i j s h
    rw [twoPointerFuel, twoPointerLoop]
    by_cases hlt : i < j
    · simp only [hlt, if_true]
      cases hsw : swapAt s i j with
      | panicked s' => rfl
      | returned s' =>
        simp only
        apply ih
        simp only [iterationBound] at *
        omega
    · simp [hlt]

/-- The mirrored-index loop exits within `iterationBound (start+end-2i)`
evaluations of its condition, because each iteration takes 2 off that gap. -/
theorem mirrorFuel_eq (start end_ : Int) :
    ∀ (fuel : Nat) (i : Int) (s : State),
      iterationBound (start + end_ - i - i) ≤ fuel →
      mirrorFuel start end_ fuel i s = some (mirrorLoop start end_ i s) := by
  intro fuel
  induction fuel with
  | zero =>
    intro i s h
    simp only [iterationBound] at h
    omega
  | succ m ih =>
    intro i s h
    rw [mirrorFuel, mirrorLoop]
    by_cases hlt : i < start + end_ - i
    · simp only [hlt, if_true]
      cases hsw : swapAt s i (start + end_ - i) with
      | panicked s' => rfl
      | returned s' =>
        simp only
        apply ih
        simp only [iterationBound] at *
        omega
    · simp [hlt]

/-! ## The whole call -/

/-- The call is the two-pointer loop run twice from `start`, `end`. -/
theorem ReverseInPlace_unfold (l : List Int) (st en : Int) :
    ReverseInPlace l st en =
      match twoPointerLoop st en (initial l) with
      | .returned s => twoPointerLoop st en s
      | .panicked s => .panicked s := by
  unfold ReverseInPlace
  rw [mirrorLoop_eq_twoPointerLoop st en _ st (initial l) (le_refl _)]
  have : st + en - st = en := by omega
  rw [this]

/-- With `0 <= start` and `end < len(list)` the call returns, the slice holds
what it held before, each loop did `floor((end-start+1)/2)` swaps, and every
index used lies in `start..end`. -/
theorem ReverseInPlace_in_range (l : List Int) (st en : Int) (h0 : 0 ≤ st)
    (h1 : en < l.length) :
    ∃ s, ReverseInPlace l st en = .returned s ∧ s.list = l ∧
      s.swaps = 2 * ((en - st + 1) / 2).toNat ∧
      (∀ a ∈ s.accessed, st ≤ a ∧ a ≤ en) := by
  obtain ⟨s1, hrun1, hlen1, hidx1, hsw1, hacc1⟩ :=
    twoPointerLoop_spec _ st en (initial l) (le_refl _) h0 h1
  obtain ⟨s2, hrun2, _, hidx2, hsw2, hacc2⟩ :=
    twoPointerLoop_spec _ st en s1 (le_refl _) h0 (by rw [hlen1]; exact h1)
  refine ⟨s2, ?_, ?_, ?_, ?_⟩
  · rw [ReverseInPlace_unfold, hrun1]; exact hrun2
  · apply list_eq_of_index
    intro k
    rw [hidx2 k]
    by_cases hk : st ≤ k ∧ k ≤ en
    · have hk' : st ≤ st + en - k ∧ st + en - k ≤ en := by omega
      have e : st + en - (st + en - k) = k := by omega
      rw [if_pos hk, hidx1 (st + en - k), if_pos hk', e]
      rfl
    · rw [if_neg hk, hidx1 k, if_neg hk]
      rfl
  · rw [hsw2, hsw1]
    simp only [initial]
    omega
  · intro a ha
    rcases hacc2 a ha with hmem | hr
    · rcases hacc1 a hmem with hmem0 | hr
      · simp [initial] at hmem0
      · exact hr
    · exact hr

/-- With `start >= end` neither loop body runs. -/
theorem ReverseInPlace_of_ge (l : List Int) (st en : Int) (h : en ≤ st) :
    ReverseInPlace l st en = .returned (initial l) := by
  have hn : ¬ st < en := by omega
  rw [ReverseInPlace_unfold, twoPointerLoop_exit st en _ hn]
  exact twoPointerLoop_exit st en _ hn

/-- With `start < end` and `start < 0` or `end >= len(list)` the very first
swap statement panics. -/
theorem ReverseInPlace_of_lt_out (l : List Int) (st en : Int) (h : st < en)
    (hout : st < 0 ∨ (l.length : Int) ≤ en) :
    ReverseInPlace l st en =
      .panicked { list := l, swaps := 0, accessed := [st, en] } := by
  have hnone : index (initial l).list st = none ∨ index (initial l).list en = none := by
    simp only [initial, index_eq_none_iff]
    omega
  rw [ReverseInPlace_unfold, twoPointerLoop_panic st en _ h hnone]
  simp [initial]

/-! ## Claims -/

/-- C1 (evaluation at the spec's own example): the call on `[1,2,3,4,5]` with
`start = 1`, `end = 3` runs two swaps, the second undoing the first, and
returns with the slice `[1,2,3,4,5]`; position 1 still holds 2, not the 4 that
stood at the mirrored position 3. -/
theorem reverseInPlace_segment_example :
    ReverseInPlace [1, 2, 3, 4, 5] 1 3 =
        .returned { list := [1, 2, 3, 4, 5], swaps := 2, accessed := [1, 3, 1, 3] } ∧
      index [1, 2, 3, 4, 5] 1 ≠ index [1, 2, 3, 4, 5] (1 + 3 - 1) := by
  constructor
  · simp [ReverseInPlace, mirrorLoop, twoPointerLoop, swapAt, index, store, initial]
  · simp [index]

/-- C2 (evaluation at the spec's own example): the call on `[1,2,3,4,5]` with
`start = 0`, `end = 4` returns with the slice `[1,2,3,4,5]`, which is not the
reversed list `[5,4,3,2,1]`. -/
theorem reverseInPlace_whole_example :
    ReverseInPlace [1, 2, 3, 4, 5] 0 4 =
        .returned { list := [1, 2, 3, 4, 5], swaps := 4,
                    accessed := [0, 4, 1, 3, 0, 4, 1, 3] } ∧
      ([1, 2, 3, 4, 5] : List Int) ≠ List.reverse [1, 2, 3, 4, 5] := by
  constructor
  · simp [ReverseInPlace, mirrorLoop, twoPointerLoop, swapAt, index, store, initial]
  · decide

/-- C3: for `0 <= start <= end < len(list)` the call returns, the slice keeps
its length, and every position `k < start` or `k > end` holds what it held
before. -/
theorem reverseInPlace_frame (l : List Int) (st en : Int) (h0 : 0 ≤ st)
    (_h1 : st ≤ en) (h2 : en < l.length) :
    ∃ s, ReverseInPlace l st en = .returned s ∧ s.list.length = l.length ∧
      ∀ k : Int, k < st ∨ en < k → index s.list k = index l k := by
  obtain ⟨s, hrun, hlist, _, _⟩ := ReverseInPlace_in_range l st en h0 h2
  exact ⟨s, hrun, by rw [hlist], fun k _ => by rw [hlist]⟩

/-- Instance on `[1,2,3,4,5]` with `start = 1`, `end = 3`. -/
theorem reverseInPlace_frame_witness :
    ∃ s, ReverseInPlace [1, 2, 3, 4, 5] 1 3 = .returned s ∧
      s.list.length = ([1, 2, 3, 4, 5] : List Int).length ∧
      ∀ k : Int, k < 1 ∨ 3 < k → index s.list k = index [1, 2, 3, 4, 5] k :=
  reverseInPlace_frame [1, 2, 3, 4, 5] 1 3 (by decide) (by decide) (by decide)

/-- C4: for `start >= end` the call performs zero swaps, uses no index, and
returns with the slice unchanged. -/
theorem reverseInPlace_noop (l : List Int) (st en : Int) (h : en ≤ st) :
    ReverseInPlace l st en = .returned { list := l, swaps := 0, accessed := [] } :=
  ReverseInPlace_of_ge l st en h

/-- Instances on `[1,2,3]`: `start = end = 1`, and `start = 2 > end = 0`. -/
theorem reverseInPlace_noop_witness :
    ReverseInPlace [1, 2, 3] 1 1 =
        .returned { list := [1, 2, 3], swaps := 0, accessed := [] } ∧
      ReverseInPlace [1, 2, 3] 2 0 =
        .returned { list := [1, 2, 3], swaps := 0, accessed := [] } :=
  ⟨reverseInPlace_noop [1, 2, 3] 1 1 (by decide),
   reverseInPlace_noop [1, 2, 3] 2 0 (by decide)⟩

/-- C5 (evaluation at the spec's own example): the call on `[7,8]` with
`start = 0`, `end = 1` completes two swaps, one per loop, where
`floor((end-start+1)/2) = 1`; the slice it returns is `[7,8]` again. -/
theorem reverseInPlace_pair_example :
    ReverseInPlace [7, 8] 0 1 =
        .returned { list := [7, 8], swaps := 2, accessed := [0, 1, 0, 1] } ∧
      (2 : Int) ≠ (1 - 0 + 1) / 2 := by
  constructor
  · simp [ReverseInPlace, mirrorLoop, twoPointerLoop, swapAt, index, store, initial]
  · decide

/-- C6: for `0 <= start <= end < len(list)`, two calls in succession with the
same `start` and `end` both return, and the slice after the second call is
the original one. -/
theorem reverseInPlace_twice (l : List Int) (st en : Int) (h0 : 0 ≤ st)
    (_h1 : st ≤ en) (h2 : en < l.length) :
    ∃ s1 s2, ReverseInPlace l st en = .returned s1 ∧
      ReverseInPlace s1.list st en = .returned s2 ∧ s2.list = l := by
  obtain ⟨s1, hrun1, hlist1, _, _⟩ := ReverseInPlace_in_range l st en h0 h2
  obtain ⟨s2, hrun2, hlist2, _, _⟩ := ReverseInPlace_in_range l st en h0 h2
  exact ⟨s1, s2, hrun1, by rw [hlist1]; exact hrun2, hlist2⟩

/-- Instance on `[1,2,3,4,5]` with `start = 1`, `end = 3`. -/
theorem reverseInPlace_twice_witness :
    ∃ s1 s2, ReverseInPlace [1, 2, 3, 4, 5] 1 3 = .returned s1 ∧
      ReverseInPlace s1.list 1 3 = .returned s2 ∧ s2.list = [1, 2, 3, 4, 5] :=
  reverseInPlace_twice [1, 2, 3, 4, 5] 1 3 (by decide) (by decide) (by decide)

/-- C7: for `0 <= start <= end < len(list)` the call returns normally, and
every index used by a swap statement of either loop lies in `start..end`,
hence inside the slice. -/
theorem reverseInPlace_safe (l : List Int) (st en : Int) (h0 : 0 ≤ st)
    (_h1 : st ≤ en) (h2 : en < l.length) :
    ∃ s, ReverseInPlace l st en = .returned s ∧
      ∀ a ∈ s.accessed, (st ≤ a ∧ a ≤ en) ∧ (0 ≤ a ∧ a < l.length) := by
  obtain ⟨s, hrun, _, _, hacc⟩ := ReverseInPlace_in_range l st en h0 h2
  refine ⟨s, hrun, fun a ha => ?_⟩
  have := hacc a ha
  omega

/-- Instance on `[1,2,3,4,5]` with `start = 0`, `end = 4`. -/
theorem reverseInPlace_safe_witness :
    ∃ s, ReverseInPlace [1, 2, 3, 4, 5] 0 4 = .returned s ∧
      ∀ a ∈ s.accessed,
        (0 ≤ a ∧ a ≤ 4) ∧ (0 ≤ a ∧ a < ([1, 2, 3, 4, 5] : List Int).length) :=
  reverseInPlace_safe [1, 2, 3, 4, 5] 0 4 (by decide) (by decide) (by decide)

/-- C8 as written fails: on `[1,2,3]` with `start = end = 5`, both out of
bounds, the call returns normally and touches nothing. -/
theorem reverseInPlace_out_of_bounds_returns :
    ((([1, 2, 3] : List Int).length : Int) ≤ 5) ∧
      ReverseInPlace [1, 2, 3] 5 5 =
        .returned { list := [1, 2, 3], swaps := 0, accessed := [] } := by
  constructor
  · decide
  · simp [ReverseInPlace, mirrorLoop, twoPointerLoop, initial]

/-- C8 amended: when `start < end` and `start` or `end` is out of bounds
(negative, or `>= len(list)`), the call panics instead of returning. -/
theorem reverseInPlace_panics (l : List Int) (st en : Int) (h : st < en)
    (hout : (st < 0 ∨ (l.length : Int) ≤ st) ∨ (en < 0 ∨ (l.length : Int) ≤ en)) :
    ∃ s, ReverseInPlace l st en = .panicked s :=
  ⟨_, ReverseInPlace_of_lt_out l st en h (by omega)⟩

/-- Instances on `[1,2,3]`: `end = 3` past the slice, and `start = -1`. -/
theorem reverseInPlace_panics_witness :
    (∃ s, ReverseInPlace [1, 2, 3] 1 3 = .panicked s) ∧
      (∃ s, ReverseInPlace [1, 2, 3] (-1) 1 = .panicked s) :=
  ⟨reverseInPlace_panics [1, 2, 3] 1 3 (by decide) (by decide),
   reverseInPlace_panics [1, 2, 3] (-1) 1 (by decide) (by decide)⟩

/-- C9: every call either returns normally, or panics in its first swap
statement, the one on `start` and `end`, with no swap completed and the slice
still equal to the original. -/
theorem reverseInPlace_fault_atomic (l : List Int) (st en : Int) :
    (∃ s, ReverseInPlace l st en = .returned s) ∨
      ReverseInPlace l st en =
        .panicked { list := l, swaps := 0, accessed := [st, en] } := by
  by_cases h : st < en
  · by_cases hout : st < 0 ∨ (l.length : Int) ≤ en
    · exact Or.inr (ReverseInPlace_of_lt_out l st en h hout)
    · obtain ⟨s, hrun, _⟩ :=
        ReverseInPlace_in_range l st en (by omega) (by omega)
      exact Or.inl ⟨s, hrun⟩
  · exact Or.inl ⟨_, ReverseInPlace_of_ge l st en (by omega)⟩

/-- C10: on every slice and all integers `start`, `end`, the mirrored-index
loop alone and the two-pointer loop alone end the same way: the same slice,
the same swaps and indices, and a panic in one exactly when in the other. -/
theorem mirrorOnly_eq_twoPointerOnly (l : List Int) (st en : Int) :
    mirrorOnly l st en = twoPointerOnly l st en := by
  unfold mirrorOnly twoPointerOnly
  rw [mirrorLoop_eq_twoPointerLoop st en _ st (initial l) (le_refl _)]
  have : st + en - st = en := by omega
  rw [this]

/-- C11: for `0 <= start <= end < len(list)` the two-pointer loop on its own
returns, every position `k` of `start..end` then holds what position
`start+end-k` held before, and every position outside `start..end` holds what
it held before. -/
theorem twoPointerOnly_reverses (l : List Int) (st en : Int) (h0 : 0 ≤ st)
    (_h1 : st ≤ en) (h2 : en < l.length) :
    ∃ s, twoPointerOnly l st en = .returned s ∧
      s.list.length = l.length ∧
      (∀ k : Int, st ≤ k → k ≤ en → index s.list k = index l (st + en - k)) ∧
      (∀ k : Int, k < st ∨ en < k → index s.list k = index l k) := by
  obtain ⟨s, hrun, hlen, hidx, _, _⟩ :=
    twoPointerLoop_spec _ st en (initial l) (le_refl _) h0 h2
  refine ⟨s, hrun, hlen, ?_, ?_⟩
  · intro k hk1 hk2
    rw [hidx k, if_pos ⟨hk1, hk2⟩]
    rfl
  · intro k hk
    have hn : ¬ (st ≤ k ∧ k ≤ en) := by omega
    rw [hidx k, if_neg hn]
    rfl

/-- Instance on `[1,2,3,4,5]` with `start = 1`, `end = 3`. -/
theorem twoPointerOnly_reverses_witness :
    ∃ s, twoPointerOnly [1, 2, 3, 4, 5] 1 3 = .returned s ∧
      s.list.length = ([1, 2, 3, 4, 5] : List Int).length ∧
      (∀ k : Int, 1 ≤ k → k ≤ 3 →
        index s.list k = index [1, 2, 3, 4, 5] (1 + 3 - k)) ∧
      (∀ k : Int, k < 1 ∨ 3 < k → index s.list k = index [1, 2, 3, 4, 5] k) :=
  twoPointerOnly_reverses [1, 2, 3, 4, 5] 1 3 (by decide) (by decide) (by decide)

/-- C12 as written fails: on `[1,2,3]` with `start = 0 <= end = 5` the
two-pointer loop panics in its first iteration with no swap completed, where
`floor((end-start+1)/2) = 3`. -/
theorem twoPointerOnly_out_of_bounds_count :
    twoPointerOnly [1, 2, 3] 0 5 =
        .panicked { list := [1, 2, 3], swaps := 0, accessed := [0, 5] } ∧
      ((5 - 0 + 1) / 2 : Int).toNat = 3 := by
  constructor
  · simp [twoPointerOnly, twoPointerLoop, swapAt, index, initial]
  · decide

/-- C12 amended: whenever the positions are inside the slice if `start < end`,
the two-pointer loop on its own returns after exactly
`floor((end-start+1)/2)` swaps, which is zero for `start >= end`. -/
theorem twoPointerOnly_swaps (l : List Int) (st en : Int)
    (h : st < en → 0 ≤ st ∧ en < l.length) :
    ∃ s, twoPointerOnly l st en = .returned s ∧
      s.swaps = ((en - st + 1) / 2).toNat ∧
      (en ≤ st → s.swaps = 0) := by
  by_cases hlt : st < en
  · obtain ⟨h0, h2⟩ := h hlt
    obtain ⟨s, hrun, _, _, hsw, _⟩ :=
      twoPointerLoop_spec _ st en (initial l) (le_refl _) h0 h2
    refine ⟨s, hrun, ?_, fun hge => by omega⟩
    rw [hsw]
    simp [initial]
  · refine ⟨initial l, twoPointerLoop_exit st en _ hlt, ?_, fun _ => rfl⟩
    have : ((en - st + 1) / 2).toNat = 0 := by omega
    rw [this]
    rfl

/-- Instances: `[7,8]` with `start = 0`, `end = 1`, and `[1,2,3]` with
`start = 2 > end = 0`. -/
theorem twoPointerOnly_swaps_witness :
    (∃ s, twoPointerOnly [7, 8] 0 1 = .returned s ∧
      s.swaps = ((1 - 0 + 1) / 2 : Int).toNat ∧ ((1 : Int) ≤ 0 → s.swaps = 0)) ∧
    (∃ s, twoPointerOnly [1, 2, 3] 2 0 = .returned s ∧
      s.swaps = ((0 - 2 + 1) / 2 : Int).toNat ∧ ((0 : Int) ≤ 2 → s.swaps = 0)) :=
  ⟨twoPointerOnly_swaps [7, 8] 0 1 (fun _ => by decide),
   twoPointerOnly_swaps [1, 2, 3] 2 0 (fun h => absurd h (by decide))⟩

/-- C13: for every slice and all integers `start`, `end` the call terminates.
Run as plain iteration, each loop exits within `iterationBound (end - start)`
evaluations of its condition, one per 2 positions of the gap between the
pointers plus the exiting one, and the result is the value of the
well-founded recursion on that gap. -/
theorem reverseInPlace_terminates (l : List Int) (st en : Int) (fuel : Nat)
    (h : iterationBound (en - st) ≤ fuel) :
    ReverseInPlaceFuel fuel l st en = some (ReverseInPlace l st en) := by
  unfold ReverseInPlaceFuel ReverseInPlace
  have hg : st + en - st - st = en - st := by omega
  rw [mirrorFuel_eq st en fuel st (initial l) (by rw [hg]; exact h)]
  cases mirrorLoop st en st (initial l) with
  | panicked s => rfl
  | returned s => exact twoPointerFuel_eq fuel st en s h

/-- Instance on `[1,2,3,4,5]` with `start = 0`, `end = 4`: three evaluations
of each loop condition are enough. -/
theorem reverseInPlace_terminates_witness :
    iterationBound (4 - 0) ≤ 3 ∧
      ReverseInPlaceFuel 3 [1, 2, 3, 4, 5] 0 4 =
        some (ReverseInPlace [1, 2, 3, 4, 5] 0 4) :=
  ⟨by decide, reverseInPlace_terminates [1, 2, 3, 4, 5] 0 4 3 (by decide)⟩

/-- C14: whenever the call returns, the slice is element for element the one
it was given; and for `0 <= start <= end < len(list)` the call does return. -/
theorem reverseInPlace_identity (l : List Int) (st en : Int) :
    (∀ s, ReverseInPlace l st en = .returned s → s.list = l) ∧
      (0 ≤ st → st ≤ en → en < l.length →
        ∃ s, ReverseInPlace l st en = .returned s ∧ s.list = l) := by
  constructor
  · intro s hs
    by_cases hlt : st < en
    · by_cases hout : st < 0 ∨ (l.length : Int) ≤ en
      · rw [ReverseInPlace_of_lt_out l st en hlt hout] at hs
        cases hs
      · obtain ⟨s', hrun, hlist, _, _⟩ :=
          ReverseInPlace_in_range l st en (by omega) (by omega)
        rw [hrun] at hs
        cases hs
        exact hlist
    · rw [ReverseInPlace_of_ge l st en (by omega)] at hs
      cases hs
      rfl
  · intro h0 _ h2
    obtain ⟨s, hrun, hlist, _, _⟩ := ReverseInPlace_in_range l st en h0 h2
    exact ⟨s, hrun, hlist⟩

/-- Instance on `[1,2,3,4,5]` with `start = 1`, `end = 3`. -/
theorem reverseInPlace_identity_witness :
    (ReverseInPlace [1, 2, 3, 4, 5] 1 3 =
        .returned { list := [1, 2, 3, 4, 5], swaps := 2, accessed := [1, 3, 1, 3] } ∧
      ({ list := [1, 2, 3, 4, 5], swaps := 2, accessed := [1, 3, 1, 3] } : State).list =
        [1, 2, 3, 4, 5]) ∧
      ∃ s, ReverseInPlace [1, 2, 3, 4, 5] 1 3 = .returned s ∧ s.list = [1, 2, 3, 4, 5] :=
  have hrun : ReverseInPlace [1, 2, 3, 4, 5] 1 3 =
      .returned { list := [1, 2, 3, 4, 5], swaps := 2, accessed := [1, 3, 1, 3] } := by
    simp [ReverseInPlace, mirrorLoop, twoPointerLoop, swapAt, index, store, initial]
  ⟨⟨hrun, (reverseInPlace_identity [1, 2, 3, 4, 5] 1 3).1 _ hrun⟩,
   (reverseInPlace_identity [1, 2, 3, 4, 5] 1 3).2 (by decide) (by decide) (by decide)⟩

/-- C15: the call panics exactly when `start < end` and (`start < 0` or
`end >= len(list)`); for every other list and integers `start`, `end`,
out-of-range ones with `start >= end` included, it returns normally. -/
theorem reverseInPlace_panics_iff (l : List Int) (st en : Int) :
    ((∃ s, ReverseInPlace l st en = .panicked s) ↔
        st < en ∧ (st < 0 ∨ (l.length : Int) ≤ en)) ∧
      ((∃ s, ReverseInPlace l st en = .returned s) ↔
        ¬ (st < en ∧ (st < 0 ∨ (l.length : Int) ≤ en))) := by
  by_cases hlt : st < en
  · by_cases hout : st < 0 ∨ (l.length : Int) ≤ en
    · have hrun := ReverseInPlace_of_lt_out l st en hlt hout
      refine ⟨⟨fun _ => ⟨hlt, hout⟩, fun _ => ⟨_, hrun⟩⟩, ⟨?_, ?_⟩⟩
      · rintro ⟨s, hs⟩
        rw [hrun] at hs
        cases hs
      · intro hn
        exact absurd ⟨hlt, hout⟩ hn
    · obtain ⟨s', hrun, _⟩ :=
        ReverseInPlace_in_range l st en (by omega) (by omega)
      refine ⟨⟨?_, ?_⟩, ⟨fun _ hc => hout hc.2, fun _ => ⟨s', hrun⟩⟩⟩
      · rintro ⟨s, hs⟩
        rw [hrun] at hs
        cases hs
      · intro hc
        exact absurd hc.2 hout
  · have hrun := ReverseInPlace_of_ge l st en (by omega)
    refine ⟨⟨?_, ?_⟩, ⟨fun _ hc => hlt hc.1, fun _ => ⟨_, hrun⟩⟩⟩
    · rintro ⟨s, hs⟩
      rw [hrun] at hs
      cases hs
    · intro hc
      exact absurd hc.1 hlt

/-- C16: in 64-bit wrap-around arithmetic, for
`0 <= start <= i <= end < len(list) <= 2^63-1` the mirrored index computed as
`(start+end)-i` is the exact `start+end-i`, whether or not `start+end`
wrapped; so the loop condition `i < start+end-i` decides as in exact
arithmetic. -/
theorem mirror_index_exact (l : List Int) (st en i : Int) (h0 : 0 ≤ st)
    (h1 : st ≤ i) (h2 : i ≤ en) (h3 : en < l.length)
    (h4 : (l.length : Int) ≤ 2 ^ 63 - 1) :
    wrapInt (wrapInt (st + en) - i) = st + en - i ∧
      (i < wrapInt (wrapInt (st + en) - i) ↔ i < st + en - i) := by
  have hj : isGoInt (st + en - i) := by
    simp only [isGoInt]
    omega
  rw [mirror_no_wrap st en i hj]
  exact ⟨rfl, Iff.rfl⟩

/-- Instance where the sum wraps: a slice of `2^62 + 1` elements with
`start = i = end = 2^62`, so that `start+end = 2^63` wraps to `-2^63`. -/
theorem mirror_index_exact_witness :
    wrapInt (2 ^ 62 + 2 ^ 62) = -(2 ^ 63) ∧
      (wrapInt (wrapInt (2 ^ 62 + 2 ^ 62) - 2 ^ 62) = 2 ^ 62 + 2 ^ 62 - 2 ^ 62 ∧
        ((2 ^ 62 : Int) < wrapInt (wrapInt (2 ^ 62 + 2 ^ 62) - 2 ^ 62) ↔
          (2 ^ 62 : Int) < 2 ^ 62 + 2 ^ 62 - 2 ^ 62)) :=
  ⟨by decide,
   mirror_index_exact (List.replicate (2 ^ 62 + 1) 0) (2 ^ 62) (2 ^ 62) (2 ^ 62)
    (by decide) (by decide) (by decide)
    (by rw [List.length_replicate]; norm_num)
    (by rw [List.length_replicate]; norm_num)⟩

end GoCheatsheet
